import Mathlib

/-!
Shallow embedding of the shunting-yard infix-to-RPN converter
(src/shunting-yard-algorithm.py) and verification of its specification.

Python asserts and list-pop-on-empty errors are modelled by an explicit
error type; everything else is translated directly from the source.
-/

set_option maxRecDepth 4000

namespace ShuntingYard

/-- Associativity constants of the source class Operator: LEFT = 0, RIGHT = 1. -/
inductive Assoc where
  | left
  | right
  deriving DecidableEq, Repr

/-- An operator descriptor: the symbol character together with the precedence
and associativity resolved from the PROPS table in Operator.__init__. -/
structure Operator where
  val : Char
  precedence : Nat
  assoc : Assoc
  deriving DecidableEq, Repr

/-- The recognized operator symbols, Operator.VALUES = "!^*/%+-=". -/
def Operator.VALUES : List Char := ['!', '^', '*', '/', '%', '+', '-', '=']

/-- The PROPS table of the source: symbol to (precedence, associativity). -/
def Operator.PROPS : List (Char × Nat × Assoc) :=
  [('!', (5, .right)), ('^', (4, .right)), ('*', (3, .left)), ('/', (3, .left)),
   ('%', (3, .left)), ('+', (2, .left)), ('-', (2, .left)), ('=', (1, .right))]

/-- Operator.__init__: look the symbol up in VALUES; the source asserts the
symbol was found (modelled as none on failure) and then reads precedence and
associativity from PROPS. -/
def Operator.init (val : Char) : Option Operator :=
  if Operator.VALUES.contains val then
    match Operator.PROPS.find? (fun p => p.1 == val) with
    | some (_, prec, a) => some ⟨val, prec, a⟩
    | none => none
  else
    none

/-- Token kind constants of the source class Token (SOL = -1 .. R_PAREN = 6). -/
inductive TokenType where
  | SOL
  | EOL
  | IDENT
  | OP
  | FUNC
  | ARG_SEP
  | L_PAREN
  | R_PAREN
  deriving DecidableEq, Repr

/-- Payload of a token: the character (as a string) for most kinds, or the
resolved Operator descriptor for OP tokens. -/
inductive TokenVal where
  | str (s : String)
  | op (o : Operator)
  deriving DecidableEq, Repr

/-- A token: kind, payload, and zero-based source position (sentinels use -1). -/
structure Token where
  type : TokenType
  val : TokenVal
  pos : Int
  deriving DecidableEq, Repr

/-- Display form of a token payload (Token.__repr__ via str of the value;
an Operator renders as its symbol character). -/
def TokenVal.render : TokenVal → String
  | .str s => s
  | .op o => String.mk [o.val]

/-- Display form of a token, str(token) in the source. -/
def Token.render (t : Token) : String := t.val.render

/-- Whether a character is classified by some branch of Tokenize.tokenize
(anything else is skipped silently). -/
def recognized (c : Char) : Bool :=
  c.isLower || c.isDigit || c.isUpper || Operator.VALUES.contains c
    || c == '(' || c == ')' || c == ','

/-- Tokenize.tokenize: classify each character at its index, skipping
unrecognized characters; a failed Operator construction aborts with none. -/
def tokenizeChars : List Char → Int → Option (List Token)
  | [], _ => some []
  | c :: rest, i =>
    if c.isLower || c.isDigit then
      (tokenizeChars rest (i + 1)).map
        (fun ts => ⟨.IDENT, .str (String.mk [c]), i⟩ :: ts)
    else if c.isUpper then
      (tokenizeChars rest (i + 1)).map
        (fun ts => ⟨.FUNC, .str (String.mk [c]), i⟩ :: ts)
    else if Operator.VALUES.contains c then
      match Operator.init c with
      | some o =>
        (tokenizeChars rest (i + 1)).map (fun ts => ⟨.OP, .op o, i⟩ :: ts)
      | none => none
    else if c == '(' then
      (tokenizeChars rest (i + 1)).map
        (fun ts => ⟨.L_PAREN, .str (String.mk [c]), i⟩ :: ts)
    else if c == ')' then
      (tokenizeChars rest (i + 1)).map
        (fun ts => ⟨.R_PAREN, .str (String.mk [c]), i⟩ :: ts)
    else if c == ',' then
      (tokenizeChars rest (i + 1)).map
        (fun ts => ⟨.ARG_SEP, .str (String.mk [c]), i⟩ :: ts)
    else
      tokenizeChars rest (i + 1)

/-- The full token sequence of a source string. -/
def tokenize (src : String) : Option (List Token) := tokenizeChars src.toList 0

/-- The state of a Tokenize object: the tokens the generator has not yet
yielded, and the current token (initially an EOL sentinel). -/
structure Tokenize where
  rem : List Token
  current : Token
  deriving DecidableEq, Repr

/-- A Tokenize object freshly built over an already-produced token list. -/
def Tokenize.ofToks (ts : List Token) : Tokenize := ⟨ts, ⟨.EOL, .str "", -1⟩⟩

/-- Tokenize.next: yield the next generator element, or, once the generator is
exhausted, an EOL token (with the three-space value used by the source). -/
def Tokenize.next : Tokenize → Token × Tokenize
  | ⟨[], _⟩ =>
    let t : Token := ⟨.EOL, .str "   ", -1⟩
    (t, ⟨[], t⟩)
  | ⟨t :: rest, _⟩ => (t, ⟨rest, t⟩)

/-- The token returned by the (n+1)-st successive call of next. -/
def Tokenize.nthNext (tz : Tokenize) : Nat → Token
  | 0 => tz.next.1
  | n + 1 => tz.next.2.nthNext n

/-- OperatorStack.top: the last pushed token, or an SOL sentinel when empty. -/
def stackTop : List Token → Token
  | [] => ⟨.SOL, .str "", -1⟩
  | t :: _ => t

/-- The ways shunting_yard can fail: the two asserts in the token loop, the
assert in the final drain, the IndexError of list.pop() on an empty stack, and
the impossible attribute access of a non-Operator payload used as an operator. -/
inductive YardError where
  | sepMismatch
  | parenMismatch
  | emptyPop
  | endParen
  | badToken
  deriving DecidableEq, Repr

/-- The ARG_SEP inner loop: pop to the output while the top of the stack is
neither a left parenthesis nor the empty-stack sentinel. -/
def sepLoop : List Token → List Token → List Token × List Token
  | [], out => ([], out)
  | t :: rest, out =>
    if t.type = .L_PAREN then (t :: rest, out)
    else sepLoop rest (out ++ [t])

/-- The pop test in the OP inner loop: o1 is left-associative with precedence
at most that of o2, or has precedence strictly below that of o2. -/
def popCond (o1 o2 : Operator) : Bool :=
  (o1.assoc == .left && decide (o1.precedence ≤ o2.precedence))
    || decide (o1.precedence < o2.precedence)

/-- The OP inner loop: while the top of the stack is an operator satisfying
popCond, pop it to the output. An OP token without an Operator payload would
raise an AttributeError in the source. -/
def opLoop (o1 : Operator) : List Token → List Token →
    Except YardError (List Token × List Token)
  | [], out => .ok ([], out)
  | t :: rest, out =>
    if t.type = .OP then
      match t.val with
      | .op o2 =>
        if popCond o1 o2 then opLoop o1 rest (out ++ [t])
        else .ok (t :: rest, out)
      | .str _ => .error .badToken
    else
      .ok (t :: rest, out)

/-- The R_PAREN inner loop: pop to the output until the top of the stack is a
left parenthesis; when the stack empties first, the top is the SOL sentinel and
the body's pop of the empty stack raises IndexError. -/
def rparenLoop : List Token → List Token →
    Except YardError (List Token × List Token)
  | [], _ => .error .emptyPop
  | t :: rest, out =>
    if t.type = .L_PAREN then .ok (t :: rest, out)
    else rparenLoop rest (out ++ [t])

/-- One iteration of the main while loop of shunting_yard on the current
token, transforming the operator stack and the output queue. -/
def step (tok : Token) (stack out : List Token) :
    Except YardError (List Token × List Token) :=
  match tok.type with
  | .IDENT => .ok (stack, out ++ [tok])
  | .FUNC => .ok (tok :: stack, out)
  | .ARG_SEP =>
    let p := sepLoop stack out
    if (stackTop p.1).type = .L_PAREN then .ok (p.1, p.2)
    else .error .sepMismatch
  | .OP =>
    match tok.val with
    | .op o1 =>
      match opLoop o1 stack out with
      | .ok (st, o) => .ok (tok :: st, o)
      | .error e => .error e
    | .str _ => .error .badToken
  | .L_PAREN => .ok (tok :: stack, out)
  | .R_PAREN =>
    match rparenLoop stack out with
    | .ok (st, o) =>
      if (stackTop st).type = .L_PAREN then
        match st with
        | _ :: rest =>
          if (stackTop rest).type = .FUNC then
            match rest with
            | f :: rest2 => .ok (rest2, o ++ [f])
            | [] => .ok ([], o)
          else .ok (rest, o)
        | [] => .error .emptyPop
      else .error .parenMismatch
    | .error e => .error e
  | .SOL => .ok (stack, out)
  | .EOL => .ok (stack, out)

/-- The main while loop of shunting_yard over the whole token sequence. -/
def runTokens : List Token → List Token → List Token →
    Except YardError (List Token × List Token)
  | [], stack, out => .ok (stack, out)
  | t :: rest, stack, out =>
    match step t stack out with
    | .ok (st, o) => runTokens rest st o
    | .error e => .error e

/-- The final drain loop of shunting_yard: while the top of the stack is an
operator or a parenthesis, assert it is not a parenthesis and pop it to the
output. A FUNC (or SOL) top ends the loop. -/
def drain : List Token → List Token → Except YardError (List Token)
  | [], out => .ok out
  | t :: rest, out =>
    if t.type = .OP ∨ t.type = .L_PAREN ∨ t.type = .R_PAREN then
      if t.type = .L_PAREN ∨ t.type = .R_PAREN then .error .endParen
      else drain rest (out ++ [t])
    else .ok out

/-- str(output_queue): the display forms of the output tokens, concatenated. -/
def renderOutput (ts : List Token) : String :=
  String.join (ts.map Token.render)

/-- shunting_yard: tokenize the expression, run the main loop from fresh empty
stack and output, drain the stack, and render the output queue. -/
def shunting_yard (expression : String) : Except YardError String :=
  match tokenize expression with
  | none => .error .badToken
  | some toks =>
    match runTokens toks [] [] with
    | .ok (stack, out) =>
      match drain stack out with
      | .ok final => .ok (renderOutput final)
      | .error e => .error e
    | .error e => .error e


/-- Tokens whose payload is an operator descriptor, as OP tokens of the
tokenizer always are. -/
def opish (t : Token) : Prop := t.type = .OP ∧ ∃ o, t.val = .op o

/-- Stack tokens allowed by the data-model invariant: operators, functions
and parentheses, never identifiers. -/
def stackKind (t : Token) : Prop :=
  t.type = .OP ∨ t.type = .FUNC ∨ t.type = .L_PAREN

/-- Two separate conversion calls on the same input, sharing no state. -/
def runTwice (s : String) : Except YardError String × Except YardError String :=
  (shunting_yard s, shunting_yard s)

lemma Operator.init_isSome : ∀ c ∈ Operator.VALUES, (Operator.init c).isSome = true := by
  intro c hm
  fin_cases hm <;> rfl

lemma tokenizeChars_isSome (cs : List Char) : ∀ i, (tokenizeChars cs i).isSome = true := by
  induction cs with
  | nil => intro i; rfl
  | cons c rest ih =>
    intro i
    by_cases h1 : (c.isLower || c.isDigit) = true
    · simp [tokenizeChars, h1, ih]
    · by_cases h2 : c.isUpper = true
      · simp [tokenizeChars, h1, h2, ih]
      · by_cases h3 : c ∈ Operator.VALUES
        · have := Operator.init_isSome c h3
          cases ho : Operator.init c with
          | none => rw [ho] at this; simp at this
          | some o => simp [tokenizeChars, h1, h2, h3, ho, ih]
        · by_cases h4 : c = '('
          · subst h4
            have h3' : ('(' : Char) ∉ Operator.VALUES := by decide
            simp [tokenizeChars, h1, h2, h3', ih]
          · by_cases h5 : c = ')'
            · subst h5
              have h3' : (')' : Char) ∉ Operator.VALUES := by decide
              simp [tokenizeChars, h1, h2, h3', h4, ih]
            · by_cases h6 : c = ','
              · subst h6
                have h3' : (',' : Char) ∉ Operator.VALUES := by decide
                simp [tokenizeChars, h1, h2, h3', h4, h5, ih]
              · simp [tokenizeChars, h1, h2, h3, h4, h5, h6, ih]

lemma tokenizeChars_skip : ∀ c, recognized c = false → ∀ rest i,
    tokenizeChars (c :: rest) i = tokenizeChars rest (i + 1) := by
  intro c h rest i
  simp only [recognized, Bool.or_eq_false_iff] at h
  obtain ⟨⟨⟨⟨⟨⟨hl, hd⟩, hu⟩, hv⟩, hp⟩, hq⟩, hc⟩ := h
  have hv' : c ∉ Operator.VALUES := by simpa using hv
  have hp' : ¬c = '(' := by simpa using hp
  have hq' : ¬c = ')' := by simpa using hq
  have hc' : ¬c = ',' := by simpa using hc
  simp [tokenizeChars, hl, hd, hu, hv', hp', hq', hc']


lemma tokenizeChars_op_val (cs : List Char) : ∀ i toks, tokenizeChars cs i = some toks →
    ∀ t ∈ toks, t.type = .OP → ∃ o, t.val = .op o := by
  induction cs with
  | nil =>
    intro i toks h
    simp only [tokenizeChars, Option.some.injEq] at h
    subst h
    simp
  | cons c rest ih =>
    intro i toks h t ht hty
    rw [tokenizeChars] at h
    split at h
    · obtain ⟨ts, hts, rfl⟩ := Option.map_eq_some'.mp h
      rcases List.mem_cons.mp ht with rfl | hmem
      · simp at hty
      · exact ih _ _ hts t hmem hty
    · split at h
      · obtain ⟨ts, hts, rfl⟩ := Option.map_eq_some'.mp h
        rcases List.mem_cons.mp ht with rfl | hmem
        · simp at hty
        · exact ih _ _ hts t hmem hty
      · split at h
        · split at h
          · obtain ⟨ts, hts, rfl⟩ := Option.map_eq_some'.mp h
            rcases List.mem_cons.mp ht with rfl | hmem
            · exact ⟨_, rfl⟩
            · exact ih _ _ hts t hmem hty
          · exact absurd h (by simp)
        · split at h
          · obtain ⟨ts, hts, rfl⟩ := Option.map_eq_some'.mp h
            rcases List.mem_cons.mp ht with rfl | hmem
            · simp at hty
            · exact ih _ _ hts t hmem hty
          · split at h
            · obtain ⟨ts, hts, rfl⟩ := Option.map_eq_some'.mp h
              rcases List.mem_cons.mp ht with rfl | hmem
              · simp at hty
              · exact ih _ _ hts t hmem hty
            · split at h
              · obtain ⟨ts, hts, rfl⟩ := Option.map_eq_some'.mp h
                rcases List.mem_cons.mp ht with rfl | hmem
                · simp at hty
                · exact ih _ _ hts t hmem hty
              · exact ih _ _ h t ht hty

lemma sepLoop_stack_mem (st : List Token) : ∀ out t, t ∈ (sepLoop st out).1 → t ∈ st := by
  induction st with
  | nil => intro out t ht; simp [sepLoop] at ht
  | cons a rest ih =>
    intro out t ht
    by_cases h : a.type = .L_PAREN
    · simpa [sepLoop, h] using ht
    · simp only [sepLoop, h, if_false] at ht
      exact List.mem_cons_of_mem a (ih _ t ht)

lemma sepLoop_no_lparen (st : List Token) : ∀ out, (∀ t ∈ st, t.type ≠ .L_PAREN) →
    sepLoop st out = ([], out ++ st) := by
  induction st with
  | nil => intro out h; simp [sepLoop]
  | cons a rest ih =>
    intro out h
    have ha := h a (List.mem_cons_self a rest)
    rw [sepLoop, if_neg ha, ih (out ++ [a]) (fun t ht => h t (List.mem_cons_of_mem a ht))]
    simp

lemma rparenLoop_mem (st : List Token) : ∀ out st' out' t,
    rparenLoop st out = .ok (st', out') → t ∈ st' → t ∈ st := by
  induction st with
  | nil => intro out st' out' t h; simp [rparenLoop] at h
  | cons a rest ih =>
    intro out st' out' t h ht
    by_cases ha : a.type = .L_PAREN
    · rw [rparenLoop, if_pos ha] at h
      simp only [Except.ok.injEq, Prod.mk.injEq] at h
      obtain ⟨h1, h2⟩ := h
      subst h1
      exact ht
    · rw [rparenLoop, if_neg ha] at h
      exact List.mem_cons_of_mem a (ih _ _ _ t h ht)


lemma rparenLoop_no_lparen (st : List Token) : ∀ out, (∀ t ∈ st, t.type ≠ .L_PAREN) →
    rparenLoop st out = .error .emptyPop := by
  induction st with
  | nil => intro out h; rfl
  | cons a rest ih =>
    intro out h
    have ha := h a (List.mem_cons_self a rest)
    rw [rparenLoop, if_neg ha]
    exact ih _ (fun t ht => h t (List.mem_cons_of_mem a ht))

lemma opLoop_cons_op (o1 o2 : Operator) (a : Token) (rest out : List Token)
    (ha : a.type = .OP) (hv : a.val = .op o2) :
    opLoop o1 (a :: rest) out =
      if popCond o1 o2 then opLoop o1 rest (out ++ [a]) else .ok (a :: rest, out) := by
  rw [opLoop, if_pos ha, hv]

lemma opLoop_mem (o1 : Operator) (st : List Token) : ∀ out st' out' t,
    opLoop o1 st out = .ok (st', out') → t ∈ st' → t ∈ st := by
  induction st with
  | nil =>
    intro out st' out' t h ht
    simp only [opLoop, Except.ok.injEq, Prod.mk.injEq] at h
    obtain ⟨h1, h2⟩ := h
    subst h1
    simp at ht
  | cons a rest ih =>
    intro out st' out' t h ht
    by_cases ha : a.type = .OP
    · cases hv : a.val with
      | op o2 =>
        rw [opLoop_cons_op o1 o2 a rest out ha hv] at h
        by_cases hp : popCond o1 o2 = true
        · rw [if_pos hp] at h
          exact List.mem_cons_of_mem a (ih _ _ _ t h ht)
        · rw [if_neg hp] at h
          simp only [Except.ok.injEq, Prod.mk.injEq] at h
          obtain ⟨h1, h2⟩ := h
          subst h1
          exact ht
      | str s =>
        rw [opLoop, if_pos ha, hv] at h
        exact absurd h (by simp)
    · rw [opLoop, if_neg ha] at h
      simp only [Except.ok.injEq, Prod.mk.injEq] at h
      obtain ⟨h1, h2⟩ := h
      subst h1
      exact ht

lemma opLoop_balance (o1 : Operator) (st : List Token) : ∀ out, (∀ t ∈ st, opish t) →
    ∃ st' out', opLoop o1 st out = .ok (st', out') ∧
      st'.length + out'.length = st.length + out.length ∧ ∀ t ∈ st', opish t := by
  induction st with
  | nil => intro out h; exact ⟨[], out, rfl, by simp, by simp⟩
  | cons a rest ih =>
    intro out h
    obtain ⟨hty, o2, hval⟩ := h a (List.mem_cons_self a rest)
    by_cases hp : popCond o1 o2 = true
    · obtain ⟨st', out', heq, hlen, hall⟩ :=
        ih (out ++ [a]) (fun t ht => h t (List.mem_cons_of_mem a ht))
      refine ⟨st', out', ?_, ?_, hall⟩
      · rw [opLoop_cons_op o1 o2 a rest out hty hval, if_pos hp]
        exact heq
      · simp only [List.length_append, List.length_cons, List.length_nil] at hlen ⊢
        omega
    · refine ⟨a :: rest, out, ?_, rfl, h⟩
      rw [opLoop_cons_op o1 o2 a rest out hty hval, if_neg hp]

lemma drain_ops (st : List Token) : ∀ out, (∀ t ∈ st, t.type = .OP) →
    drain st out = .ok (out ++ st) := by
  induction st with
  | nil => intro out h; simp [drain]
  | cons a rest ih =>
    intro out h
    have ha := h a (List.mem_cons_self a rest)
    rw [drain, if_pos (Or.inl ha), if_neg (by simp [ha])]
    rw [ih (out ++ [a]) (fun t ht => h t (List.mem_cons_of_mem a ht))]
    simp

lemma drain_to_paren (s1 : List Token) : ∀ p s2 out, (∀ t ∈ s1, t.type = .OP) →
    (p.type = .L_PAREN ∨ p.type = .R_PAREN) →
    drain (s1 ++ p :: s2) out = .error .endParen := by
  induction s1 with
  | nil =>
    intro p s2 out _ hp
    rw [List.nil_append, drain, if_pos (Or.inr hp), if_pos hp]
  | cons a rest ih =>
    intro p s2 out h hp
    have ha := h a (List.mem_cons_self a rest)
    rw [List.cons_append, drain, if_pos (Or.inl ha), if_neg (by simp [ha])]
    exact ih p s2 (out ++ [a]) (fun t ht => h t (List.mem_cons_of_mem a ht)) hp

lemma nthNext_nil : ∀ (n : Nat) (c : Token),
    ((⟨[], c⟩ : Tokenize).nthNext n).type = .EOL := by
  intro n
  induction n with
  | zero => intro c; rfl
  | succ m ih => intro c; exact ih _

lemma nthNext_past_end (ts : List Token) : ∀ (c : Token) (n : Nat), ts.length ≤ n →
    ((⟨ts, c⟩ : Tokenize).nthNext n).type = .EOL := by
  induction ts with
  | nil => intro c n _; exact nthNext_nil n c
  | cons a rest ih =>
    intro c n hn
    cases n with
    | zero => simp at hn
    | succ m =>
      show ((⟨rest, a⟩ : Tokenize).nthNext m).type = .EOL
      exact ih a m (by simpa using hn)


lemma rparenLoop_ok_head (st : List Token) : ∀ out s1 o1,
    rparenLoop st out = .ok (s1, o1) →
    ∃ hd rest, s1 = hd :: rest ∧ hd.type = .L_PAREN := by
  induction st with
  | nil => intro out s1 o1 h; exact absurd h (by simp [rparenLoop])
  | cons a rest ih =>
    intro out s1 o1 h
    by_cases ha : a.type = .L_PAREN
    · rw [rparenLoop, if_pos ha] at h
      simp only [Except.ok.injEq, Prod.mk.injEq] at h
      obtain ⟨h1, -⟩ := h
      exact ⟨a, rest, h1.symm, ha⟩
    · rw [rparenLoop, if_neg ha] at h
      exact ih _ _ _ h

lemma step_stack_types (tok : Token) (st out st' out' : List Token)
    (hstep : step tok st out = .ok (st', out'))
    (hst : ∀ t ∈ st, stackKind t) : ∀ t ∈ st', stackKind t := by
  cases htt : tok.type
  case SOL =>
    simp only [step, htt, Except.ok.injEq, Prod.mk.injEq] at hstep
    obtain ⟨h1, -⟩ := hstep
    exact h1 ▸ hst
  case EOL =>
    simp only [step, htt, Except.ok.injEq, Prod.mk.injEq] at hstep
    obtain ⟨h1, -⟩ := hstep
    exact h1 ▸ hst
  case IDENT =>
    simp only [step, htt, Except.ok.injEq, Prod.mk.injEq] at hstep
    obtain ⟨h1, -⟩ := hstep
    exact h1 ▸ hst
  case FUNC =>
    simp only [step, htt, Except.ok.injEq, Prod.mk.injEq] at hstep
    obtain ⟨h1, -⟩ := hstep
    subst h1
    intro t ht
    rcases List.mem_cons.mp ht with rfl | hm
    · exact Or.inr (Or.inl htt)
    · exact hst t hm
  case ARG_SEP =>
    simp only [step, htt] at hstep
    split at hstep
    · simp only [Except.ok.injEq, Prod.mk.injEq] at hstep
      obtain ⟨h1, -⟩ := hstep
      subst h1
      intro t ht
      exact hst t (sepLoop_stack_mem st out t ht)
    · exact absurd hstep (by simp)
  case OP =>
    cases hv : tok.val with
    | str s => simp [step, htt, hv] at hstep
    | op o1 =>
      cases ho : opLoop o1 st out with
      | error e => simp [step, htt, hv, ho] at hstep
      | ok p =>
        obtain ⟨s1, o2⟩ := p
        simp only [step, htt, hv, ho, Except.ok.injEq, Prod.mk.injEq] at hstep
        obtain ⟨h1, -⟩ := hstep
        subst h1
        intro t ht
        rcases List.mem_cons.mp ht with rfl | hm
        · exact Or.inl htt
        · exact hst t (opLoop_mem o1 st out s1 o2 t ho hm)
  case L_PAREN =>
    simp only [step, htt, Except.ok.injEq, Prod.mk.injEq] at hstep
    obtain ⟨h1, -⟩ := hstep
    subst h1
    intro t ht
    rcases List.mem_cons.mp ht with rfl | hm
    · exact Or.inr (Or.inr htt)
    · exact hst t hm
  case R_PAREN =>
    cases hr : rparenLoop st out with
    | error e => simp [step, htt, hr] at hstep
    | ok p =>
      obtain ⟨s1, o1⟩ := p
      obtain ⟨lp, rest, rfl, hlp⟩ := rparenLoop_ok_head st out s1 o1 hr
      have hsub : ∀ t ∈ rest, t ∈ st := fun t ht =>
        rparenLoop_mem st out (lp :: rest) o1 t hr (List.mem_cons_of_mem lp ht)
      cases rest with
      | nil =>
        simp [step, htt, hr, stackTop, hlp] at hstep
        obtain ⟨h1, -⟩ := hstep
        subst h1
        intro t ht
        simp at ht
      | cons f rest2 =>
        by_cases hf : f.type = .FUNC
        · simp [step, htt, hr, stackTop, hlp, hf] at hstep
          obtain ⟨h1, -⟩ := hstep
          subst h1
          intro t ht
          exact hst t (hsub t (List.mem_cons_of_mem f ht))
        · simp [step, htt, hr, stackTop, hlp, hf] at hstep
          obtain ⟨h1, -⟩ := hstep
          subst h1
          intro t ht
          exact hst t (hsub t ht)


lemma runTokens_stack_types (toks : List Token) : ∀ st out st' out',
    (∀ t ∈ st, stackKind t) → runTokens toks st out = .ok (st', out') →
    ∀ t ∈ st', stackKind t := by
  induction toks with
  | nil =>
    intro st out st' out' hst h
    simp only [runTokens, Except.ok.injEq, Prod.mk.injEq] at h
    obtain ⟨h1, -⟩ := h
    exact h1 ▸ hst
  | cons a rest ih =>
    intro st out st' out' hst h
    cases hs : step a st out with
    | error e => rw [runTokens, hs] at h; exact absurd h (by simp)
    | ok p =>
      obtain ⟨s1, o1⟩ := p
      rw [runTokens, hs] at h
      exact ih s1 o1 st' out' (step_stack_types a st out s1 o1 hs hst) h

lemma step_balance (tok : Token) (st out : List Token)
    (htok : tok.type = .IDENT ∨ opish tok) (hst : ∀ t ∈ st, opish t) :
    ∃ st' out', step tok st out = .ok (st', out') ∧
      st'.length + out'.length = st.length + out.length + 1 ∧
      ∀ t ∈ st', opish t := by
  rcases htok with hty | ⟨hty, o1, hval⟩
  · refine ⟨st, out ++ [tok], ?_, by simp; omega, hst⟩
    simp [step, hty]
  · obtain ⟨s1, o2, heq, hlen, hall⟩ := opLoop_balance o1 st out hst
    refine ⟨tok :: s1, o2, ?_, ?_, ?_⟩
    · simp [step, hty, hval, heq]
    · simp only [List.length_cons]
      omega
    · intro t ht
      rcases List.mem_cons.mp ht with rfl | hm
      · exact ⟨hty, o1, hval⟩
      · exact hall t hm

lemma runTokens_balance (toks : List Token) : ∀ st out,
    (∀ t ∈ toks, t.type = .IDENT ∨ opish t) → (∀ t ∈ st, opish t) →
    ∃ st' out', runTokens toks st out = .ok (st', out') ∧
      st'.length + out'.length = st.length + out.length + toks.length ∧
      ∀ t ∈ st', opish t := by
  induction toks with
  | nil =>
    intro st out _ hst
    exact ⟨st, out, rfl, by simp, hst⟩
  | cons a rest ih =>
    intro st out htoks hst
    obtain ⟨s1, o1, hs, hlen1, hall1⟩ :=
      step_balance a st out (htoks a (List.mem_cons_self a rest)) hst
    obtain ⟨st', out', hr, hlen2, hall2⟩ :=
      ih s1 o1 (fun t ht => htoks t (List.mem_cons_of_mem a ht)) hall1
    refine ⟨st', out', ?_, ?_, hall2⟩
    · rw [runTokens, hs]
      exact hr
    · simp only [List.length_cons]
      omega


lemma drain_func_stops : ∀ f st out, f.type = .FUNC → drain (f :: st) out = .ok out := by
  intro f st out h
  simp [drain, h]

lemma step_argsep_no_lparen : ∀ tok st out, tok.type = .ARG_SEP →
    (∀ t ∈ st, t.type ≠ .L_PAREN) → step tok st out = .error .sepMismatch := by
  intro tok st out hty hnp
  simp [step, hty, sepLoop_no_lparen st out hnp, stackTop]

lemma step_rparen_no_lparen : ∀ tok st out, tok.type = .R_PAREN →
    (∀ t ∈ st, t.type ≠ .L_PAREN) → step tok st out = .error .emptyPop := by
  intro tok st out hty hnp
  simp [step, hty, rparenLoop_no_lparen st out hnp]


/-- C2: converting the input string 3+4*2/(1-5)^2^3 returns exactly the
output string 342*15-23^^/+. -/
theorem worked_example_conversion :
    shunting_yard "3+4*2/(1-5)^2^3" = .ok "342*15-23^^/+" := rfl

/-- C4: converting 2^3^4 returns exactly 234^^, and in general an incoming
right-associative operator of precedence equal to the stacked operator's does
not satisfy the pop condition, so the stacked operator is not popped. -/
theorem right_assoc_equal_prec_no_pop :
    shunting_yard "2^3^4" = .ok "234^^" ∧
    ∀ o1 o2 : Operator, o1.assoc = .right → o1.precedence = o2.precedence →
      popCond o1 o2 = false := by
  refine ⟨rfl, ?_⟩
  intro o1 o2 h1 h2
  simp [popCond, h1, h2]

/-- Witness for C4 at the caret operator descriptor. -/
theorem right_assoc_equal_prec_no_pop_witness :
    shunting_yard "2^3^4" = .ok "234^^" ∧
    popCond ⟨'^', 4, .right⟩ ⟨'^', 4, .right⟩ = false :=
  ⟨right_assoc_equal_prec_no_pop.1,
   right_assoc_equal_prec_no_pop.2 ⟨'^', 4, .right⟩ ⟨'^', 4, .right⟩ rfl rfl⟩

/-- C9: conversion carries no state across calls; two invocations of the
conversion on the same string are the same pure computation and return the
same result. -/
theorem conversion_deterministic : ∀ s : String, (runTwice s).1 = (runTwice s).2 :=
  fun _ => rfl

/-- C10: a Function token still on the operator stack when the input is
exhausted is silently discarded: the bare function inputs D and Da convert
without failure and without the function in the output, because the final
drain loop stops at a FUNC top without popping or erroring. -/
theorem stranded_function_silently_dropped :
    shunting_yard "D" = .ok "" ∧ shunting_yard "Da" = .ok "a" ∧
    (∀ f st out, f.type = .FUNC → drain (f :: st) out = .ok out) :=
  ⟨rfl, rfl, drain_func_stops⟩

/-- Witness for C10: the drain stops at a concrete FUNC token. -/
theorem stranded_function_silently_dropped_witness :
    drain [(⟨.FUNC, .str "D", 0⟩ : Token)] [] = .ok [] :=
  stranded_function_silently_dropped.2.2 ⟨.FUNC, .str "D", 0⟩ [] [] rfl

/-- C8: the operator stack only ever holds operator, function and left
parenthesis tokens; an identifier is never pushed by any step. -/
theorem operator_stack_never_identifier (toks st out : List Token)
    (h : runTokens toks [] [] = .ok (st, out)) :
    ∀ t ∈ st, t.type = .OP ∨ t.type = .FUNC ∨ t.type = .L_PAREN :=
  fun t ht => runTokens_stack_types toks [] [] st out (by simp) h t ht

/-- Witness for C8 on the token sequence of a+b. -/
theorem operator_stack_never_identifier_witness :
    (⟨.OP, .op ⟨'+', 2, .left⟩, 1⟩ : Token).type = .OP ∨
      (⟨.OP, .op ⟨'+', 2, .left⟩, 1⟩ : Token).type = .FUNC ∨
      (⟨.OP, .op ⟨'+', 2, .left⟩, 1⟩ : Token).type = .L_PAREN :=
  operator_stack_never_identifier
    [⟨.IDENT, .str "a", 0⟩, ⟨.OP, .op ⟨'+', 2, .left⟩, 1⟩, ⟨.IDENT, .str "b", 2⟩]
    [⟨.OP, .op ⟨'+', 2, .left⟩, 1⟩]
    [⟨.IDENT, .str "a", 0⟩, ⟨.IDENT, .str "b", 2⟩]
    rfl ⟨.OP, .op ⟨'+', 2, .left⟩, 1⟩ (by simp)

/-- C5: on a token sequence of identifiers and operators only, conversion
succeeds and the drained output holds exactly as many tokens as the tokenizer
produced. -/
theorem conversion_preserves_token_count (src : String) (toks : List Token)
    (htok : tokenize src = some toks)
    (hkinds : ∀ t ∈ toks, t.type = .IDENT ∨ t.type = .OP) :
    ∃ st out final, runTokens toks [] [] = .ok (st, out) ∧
      drain st out = .ok final ∧ final.length = toks.length := by
  have hop := tokenizeChars_op_val src.toList 0 toks htok
  have hmix : ∀ t ∈ toks, t.type = .IDENT ∨ opish t := by
    intro t ht
    rcases hkinds t ht with h | h
    · exact Or.inl h
    · exact Or.inr ⟨h, hop t ht h⟩
  obtain ⟨st, out, hrun, hlen, hall⟩ := runTokens_balance toks [] [] hmix (by simp)
  refine ⟨st, out, out ++ st, hrun, drain_ops st out (fun t ht => (hall t ht).1), ?_⟩
  simp only [List.length_append, List.length_nil] at hlen ⊢
  omega

/-- Witness for C5 on the input a+b. -/
theorem conversion_preserves_token_count_witness :
    ∃ st out final,
      runTokens [⟨.IDENT, .str "a", 0⟩, ⟨.OP, .op ⟨'+', 2, .left⟩, 1⟩,
        ⟨.IDENT, .str "b", 2⟩] [] [] = .ok (st, out) ∧
      drain st out = .ok final ∧
      final.length = ([⟨.IDENT, .str "a", 0⟩, ⟨.OP, .op ⟨'+', 2, .left⟩, 1⟩,
        ⟨.IDENT, .str "b", 2⟩] : List Token).length :=
  conversion_preserves_token_count "a+b"
    [⟨.IDENT, .str "a", 0⟩, ⟨.OP, .op ⟨'+', 2, .left⟩, 1⟩, ⟨.IDENT, .str "b", 2⟩]
    rfl (by decide)

/-- C6: the tokenizer never fails: tokenizing any string succeeds, an
unrecognized character is skipped producing no token, and every one of the
eight operator symbols yields a valid descriptor (the lookup assert holds). -/
theorem tokenizer_never_fails :
    (∀ src : String, (tokenize src).isSome = true) ∧
    (∀ c, recognized c = false → ∀ rest i,
      tokenizeChars (c :: rest) i = tokenizeChars rest (i + 1)) ∧
    (∀ c ∈ Operator.VALUES, (Operator.init c).isSome = true) :=
  ⟨fun src => tokenizeChars_isSome src.toList 0, tokenizeChars_skip, Operator.init_isSome⟩

/-- Witness for C6: a string with spaces tokenizes, a space is skipped, and
the percent operator resolves. -/
theorem tokenizer_never_fails_witness :
    (tokenize "a + b$?").isSome = true ∧
    tokenizeChars [' ', 'a'] 0 = tokenizeChars ['a'] (0 + 1) ∧
    (Operator.init '%').isSome = true :=
  ⟨tokenizer_never_fails.1 "a + b$?",
   tokenizer_never_fails.2.1 ' ' (by decide) ['a'] 0,
   tokenizer_never_fails.2.2 '%' (by decide)⟩

/-- C7: once the token list is exhausted, every further call of next returns
an EOL token, forever. -/
theorem next_past_end_yields_eol (src : String) (ts : List Token)
    (htok : tokenize src = some ts) (n : Nat) (hn : ts.length ≤ n) :
    ((Tokenize.ofToks ts).nthNext n).type = .EOL :=
  nthNext_past_end ts _ n hn

/-- Witness for C7: the sixth call of next on the two-token input ab. -/
theorem next_past_end_yields_eol_witness :
    ((Tokenize.ofToks [⟨.IDENT, .str "a", 0⟩, ⟨.IDENT, .str "b", 1⟩]).nthNext 5).type
      = .EOL :=
  next_past_end_yields_eol "ab" [⟨.IDENT, .str "a", 0⟩, ⟨.IDENT, .str "b", 1⟩]
    rfl 5 (by decide)

/-- C1 counterexample: on the input (D a left parenthesis remains on the
stack when input is exhausted, yet the conversion returns normally with an
empty output instead of signaling failure. -/
theorem unbalanced_lparen_below_function_returns :
    tokenize "(D" = some [⟨.L_PAREN, .str "(", 0⟩, ⟨.FUNC, .str "D", 1⟩] ∧
    runTokens [⟨.L_PAREN, .str "(", 0⟩, ⟨.FUNC, .str "D", 1⟩] [] [] =
      .ok ([⟨.FUNC, .str "D", 1⟩, ⟨.L_PAREN, .str "(", 0⟩], []) ∧
    (⟨.L_PAREN, .str "(", 0⟩ : Token).type = .L_PAREN ∧
    shunting_yard "(D" = .ok "" :=
  ⟨rfl, rfl, rfl, rfl⟩

/-- C1 amended: a separator with no enclosing left parenthesis and a right
parenthesis with no match always signal failure; a leftover parenthesis at
end of input is detected only when separated from the stack top by operator
tokens alone, since the drain stops silently at a Function token. -/
theorem structural_mismatch_detection :
    (∀ tok st out, tok.type = .ARG_SEP → (∀ t ∈ st, t.type ≠ .L_PAREN) →
      step tok st out = .error .sepMismatch) ∧
    (∀ tok st out, tok.type = .R_PAREN → (∀ t ∈ st, t.type ≠ .L_PAREN) →
      step tok st out = .error .emptyPop) ∧
    (∀ s1 p s2 out, (∀ t ∈ s1, t.type = .OP) →
      (p.type = .L_PAREN ∨ p.type = .R_PAREN) →
      drain (s1 ++ p :: s2) out = .error .endParen) ∧
    (∀ f st out, f.type = .FUNC → drain (f :: st) out = .ok out) :=
  ⟨step_argsep_no_lparen, step_rparen_no_lparen, drain_to_paren, drain_func_stops⟩

/-- Witness for amended C1: each failure path at concrete tokens, and the
Function-token escape hatch of the final drain. -/
theorem structural_mismatch_detection_witness :
    step (⟨.ARG_SEP, .str ",", 3⟩ : Token) [⟨.OP, .op ⟨'-', 2, .left⟩, 1⟩] [] =
      .error .sepMismatch ∧
    step (⟨.R_PAREN, .str ")", 3⟩ : Token) [⟨.OP, .op ⟨'-', 2, .left⟩, 1⟩] [] =
      .error .emptyPop ∧
    drain ([⟨.OP, .op ⟨'-', 2, .left⟩, 1⟩] ++ (⟨.L_PAREN, .str "(", 0⟩ : Token) :: []) [] =
      .error .endParen ∧
    drain ((⟨.FUNC, .str "F", 2⟩ : Token) :: [⟨.L_PAREN, .str "(", 0⟩]) [] = .ok [] :=
  ⟨structural_mismatch_detection.1 ⟨.ARG_SEP, .str ",", 3⟩
      [⟨.OP, .op ⟨'-', 2, .left⟩, 1⟩] [] rfl (by decide),
   structural_mismatch_detection.2.1 ⟨.R_PAREN, .str ")", 3⟩
      [⟨.OP, .op ⟨'-', 2, .left⟩, 1⟩] [] rfl (by decide),
   structural_mismatch_detection.2.2.1 [⟨.OP, .op ⟨'-', 2, .left⟩, 1⟩]
      ⟨.L_PAREN, .str "(", 0⟩ [] [] (by decide) (Or.inl rfl),
   structural_mismatch_detection.2.2.2 ⟨.FUNC, .str "F", 2⟩
      [⟨.L_PAREN, .str "(", 0⟩] [] rfl⟩

/-- C3 counterexample: the conversion of a=D(f-b*c+d,!e,g) is the string
afbc*-d+e!gD= and not the string afbc*-d+e!g=D claimed by the spec. -/
theorem function_example_differs :
    shunting_yard "a=D(f-b*c+d,!e,g)" = .ok "afbc*-d+e!gD=" ∧
    "afbc*-d+e!gD=" ≠ "afbc*-d+e!g=D" ∧
    shunting_yard "a=D(f-b*c+d,!e,g)" ≠ .ok "afbc*-d+e!g=D" := by
  refine ⟨rfl, by decide, ?_⟩
  intro hc
  have h2 : (Except.ok "afbc*-d+e!gD=" : Except YardError String) = .ok "afbc*-d+e!g=D" :=
    (rfl : shunting_yard "a=D(f-b*c+d,!e,g)" = .ok "afbc*-d+e!gD=").symm.trans hc
  simp only [Except.ok.injEq] at h2
  exact absurd h2 (by decide)

/-- C3 amended: converting a=D(f-b*c+d,!e,g) returns exactly afbc*-d+e!gD=,
with the function token D appearing exactly once, immediately after its full
argument list; the assignment operator is emitted last, after the function. -/
theorem function_example_output :
    shunting_yard "a=D(f-b*c+d,!e,g)" = .ok "afbc*-d+e!gD=" ∧
    "afbc*-d+e!gD=".toList.count 'D' = 1 :=
  ⟨rfl, by decide⟩

end ShuntingYard
